import Mathlib

/-!
Shallow embedding of `src/index.js` (a poll-dedup-relay middleware between
the Current RMS API and Zapier webhooks), together with proofs of the spec's
testable properties.

Modelling conventions:
* SQLite tables (`hooks`, `cursors`, `deliveries`) become association lists
  `List (String × String)`; `INSERT ... ON CONFLICT DO UPDATE` becomes
  `upsert`, `INSERT OR IGNORE` becomes `markDelivered`'s guarded append.
* A JSON field that may be absent is an `Option String`; JavaScript `||`
  treats the empty string as falsy, which `truthy` makes explicit.
* The outbound sink (`axios.post`) is abstracted by an oracle
  `sinkOk : String → Payload → Bool` saying whether the HTTP call to a given
  URL with a given body succeeds; a `false` result models the awaited promise
  rejecting, which aborts the rest of the polling cycle.
* Wall-clock reads (`new Date().toISOString()`) are a parameter `now`.
* zod's `z.string().url()` check is an external library predicate, passed to
  the registration handler as a parameter `validUrl`.
-/

namespace CurrentZapier

/-- A raw opportunity record as returned by the upstream API.  The three
timestamp aliases and their values mirror `opp.updated_at || opp.updatedAt ||
opp.updated` in `pollOpportunities`; `none` models an absent field. -/
structure RawRecord where
  id : String
  updated_at : Option String
  updatedAt : Option String
  updated : Option String
deriving DecidableEq

/-- The durable SQLite state (`state.db`): the `hooks`, `cursors` and
`deliveries` tables, each a key-value relation keyed by its primary key. -/
structure St where
  hooks : List (String × String)
  cursors : List (String × String)
  deliveries : List (String × String)
deriving DecidableEq

/-- `INSERT ... ON CONFLICT(k) DO UPDATE SET v = excluded.v` on a primary-key
table (the key occurs at most once): overwrite the value in place when the key
is present, append the new row otherwise. -/
def upsert : List (String × String) → String → String → List (String × String)
  | [], k, v => [(k, v)]
  | p :: l, k, v => cond (p.1 == k) ((k, v) :: l) (p :: upsert l k v)

/-- `getHook` in `src/index.js`: `row?.url || null`, so an empty stored URL
is reported as absent. -/
def getHook (s : St) (event : String) : Option String :=
  match s.hooks.lookup event with
  | some url => if url = "" then none else some url
  | none => none

/-- `setHook` in `src/index.js`: upsert into the `hooks` table. -/
def setHook (s : St) (event url : String) : St :=
  { s with hooks := upsert s.hooks event url }

/-- `getCursor` in `src/index.js`: `row?.cursor || fallbackISO`. -/
def getCursor (s : St) (name fallbackISO : String) : String :=
  match s.cursors.lookup name with
  | some c => if c = "" then fallbackISO else c
  | none => fallbackISO

/-- `setCursor` in `src/index.js`: upsert into the `cursors` table. -/
def setCursor (s : St) (name cursorISO : String) : St :=
  { s with cursors := upsert s.cursors name cursorISO }

/-- `alreadyDelivered` in `src/index.js`: membership test on the `deliveries`
table. -/
def alreadyDelivered (s : St) (key : String) : Bool :=
  (s.deliveries.lookup key).isSome

/-- `markDelivered` in `src/index.js`: `INSERT OR IGNORE`, a no-op when the
idempotency key is already present. -/
def markDelivered (s : St) (key iso : String) : St :=
  if (s.deliveries.lookup key).isSome then s
  else { s with deliveries := s.deliveries ++ [(key, iso)] }

/-- JavaScript truthiness of an optional string: the empty string is falsy. -/
def truthy : Option String → Option String
  | some s => if s = "" then none else some s
  | none => none

/-- The composite `opp.updated_at || opp.updatedAt || opp.updated`: the first
alias holding a truthy (present, non-empty) value, if any. -/
def recordUpdatedAt (opp : RawRecord) : Option String :=
  match truthy opp.updated_at with
  | some t => some t
  | none =>
    match truthy opp.updatedAt with
    | some t => some t
    | none => truthy opp.updated

/-- `const occurredAt = updatedAt || new Date().toISOString()`. -/
def occurredAt (opp : RawRecord) (now : String) : String :=
  (recordUpdatedAt opp).getD now

/-- The idempotency key template literal
`opportunity:${opp.id}:${occurredAt}`. -/
def idempotencyKey (opp : RawRecord) (now : String) : String :=
  "opportunity:" ++ opp.id ++ ":" ++ occurredAt opp now

/-- The JSON body posted to the registered webhook (the ChangeEvent
envelope built inside the polling loop). -/
structure Payload where
  source : String
  event : String
  occurred_at : String
  idempotency_key : String
  data : RawRecord
deriving DecidableEq

/-- The payload object literal of `pollOpportunities`. -/
def mkPayload (opp : RawRecord) (now : String) : Payload :=
  { source := "current-rms"
    event := "opportunity.updated"
    occurred_at := occurredAt opp now
    idempotency_key := idempotencyKey opp now
    data := opp }

/-- One observed outbound HTTP POST: destination URL and body. -/
structure Call where
  url : String
  payload : Payload
deriving DecidableEq

/-- The event name used by the opportunities poller. -/
def eventName : String := "opportunity.updated"

/-- The cursor row name used by the opportunities poller. -/
def cursorName : String := "opportunities.updated_at"

/-- In-flight state of the `for (const opp of opportunities)` loop: the
durable state, the outbound calls made so far, and `newestTimestamp`. -/
structure LoopSt where
  st : St
  calls : List Call
  newest : String
deriving DecidableEq

/-- `if (updatedAt && updatedAt > newestTimestamp) newestTimestamp = updatedAt`,
with JavaScript string comparison modelled by lexicographic `String` order. -/
def bumpNewest (opp : RawRecord) (newest : String) : String :=
  match recordUpdatedAt opp with
  | some t => if newest < t then t else newest
  | none => newest

/-- One iteration of the polling loop body for record `opp`: update the
running maximum, skip if the key is already delivered, otherwise post to the
registered hook (if any; `postToZapier` returns without calling when no URL is
registered) and mark delivered.  A failed sink call (`sinkOk ... = false`)
throws: the iteration returns `.error` carrying the state at the throw, with
nothing further marked. -/
def stepRecord (sinkOk : String → Payload → Bool) (now : String) (opp : RawRecord)
    (ls : LoopSt) : Except LoopSt LoopSt :=
  let newest := bumpNewest opp ls.newest
  let key := idempotencyKey opp now
  if alreadyDelivered ls.st key then
    .ok { ls with newest := newest }
  else
    match getHook ls.st eventName with
    | none =>
      .ok { st := markDelivered ls.st key now, calls := ls.calls, newest := newest }
    | some url =>
      let payload := mkPayload opp now
      let calls := ls.calls ++ [{ url := url, payload := payload }]
      if sinkOk url payload then
        .ok { st := markDelivered ls.st key now, calls := calls, newest := newest }
      else
        .error { st := ls.st, calls := calls, newest := newest }

/-- The whole `for (const opp of opportunities)` loop: run `stepRecord` over
the batch in order, aborting at the first thrown delivery error. -/
def runLoop (sinkOk : String → Payload → Bool) (now : String) :
    List RawRecord → LoopSt → Except LoopSt LoopSt
  | [], ls => .ok ls
  | opp :: rest, ls =>
    match stepRecord sinkOk now opp ls with
    | .ok ls' => runLoop sinkOk now rest ls'
    | .error ls' => .error ls'

/-- Observable outcome of one polling cycle: the durable state afterwards,
the outbound calls made, and whether the cycle completed without throwing. -/
structure CycleOut where
  st : St
  calls : List Call
  ok : Bool
deriving DecidableEq

/-- `pollOpportunities` from the fetch of the batch onwards: read the cursor
(defaulting to `fallbackISO`, i.e. now minus five minutes), run the loop over
the fetched records, and persist the running maximum as the new cursor only
when the loop completed without throwing. -/
def pollOpportunities (sinkOk : String → Payload → Bool) (now fallbackISO : String)
    (opps : List RawRecord) (s : St) : CycleOut :=
  let since := getCursor s cursorName fallbackISO
  match runLoop sinkOk now opps { st := s, calls := [], newest := since } with
  | .ok ls => { st := setCursor ls.st cursorName ls.newest, calls := ls.calls, ok := true }
  | .error ls => { st := ls.st, calls := ls.calls, ok := false }

/-- Shape of a JSON field value looked up on the response body: absent (or
`undefined`/`null`), an array of records, a string, or some other truthy
value that is neither an array nor a string (a plain object, a number, ...).
The empty string is a falsy field value. -/
inductive JField where
  | absent
  | arrVal (xs : List RawRecord)
  | strVal (s : String)
  | objVal
deriving DecidableEq

/-- Shape of `response.data`: a falsy body (`null`/`undefined`), a top-level
array, a string body (e.g. axios's raw-string fallback for a non-JSON
response), or an object carrying optional `opportunities` and `data`
fields. -/
inductive UpstreamBody where
  | nullish
  | arr (xs : List RawRecord)
  | str (s : String)
  | obj (opportunities : JField) (dataField : JField)
deriving DecidableEq

/-- Result of evaluating
`response.data?.opportunities || response.data?.data || response.data || []`
and then iterating it with `for ... of`: an ordered record sequence; a
string, which `for ... of` iterates character by character; or a truthy
non-iterable value over which the `for ... of` throws a `TypeError`. -/
inductive ExtractResult where
  | seq (xs : List RawRecord)
  | chars (s : String)
  | notIterable
deriving DecidableEq

/-- How `for ... of` treats a truthy field value, `none` meaning the value is
falsy (absent, `null`, or the empty string) so `||` falls through to the next
alternative: an array yields its records, a non-empty string is iterated
character by character, and any other truthy value is not iterable. -/
def iterateValue : JField → Option ExtractResult
  | .absent => none
  | .arrVal xs => some (.seq xs)
  | .strVal s => if s = "" then none else some (.chars s)
  | .objVal => some .notIterable

/-- The batch-extraction expression of `pollOpportunities`.  A truthy
`opportunities` field wins, then a truthy `data` field, then the truthy body
itself, then `[]`.  A plain object reached this way (e.g. the body itself
when neither key holds a truthy value) is not iterable; a non-empty string
reached this way is iterated character by character. -/
def extractRecords (b : UpstreamBody) : ExtractResult :=
  match b with
  | .nullish => .seq []
  | .arr xs => .seq xs
  | .str s => if s = "" then .seq [] else .chars s
  | .obj o d =>
    match iterateValue o with
    | some res => res
    | none =>
      match iterateValue d with
      | some res => res
      | none => .notIterable

/-- The view of one character produced by `for ... of` over a string through
the fields the loop body reads: a character has none of the timestamp
aliases, and its absent `id` stringifies to `"undefined"` inside the key
template literal.  (The envelope's `data` field holds the one-character
string itself; this record is its accessed-field view.) -/
def charRecord (_c : Char) : RawRecord :=
  { id := "undefined", updated_at := none, updatedAt := none, updated := none }

/-- The polling cycle starting from the raw response body: extract the batch
and run the cycle.  A record sequence is iterated as such; a string batch is
iterated character by character (the cycle proceeds over degenerate
character records); a non-iterable batch throws before the loop body runs,
leaving the durable state untouched and the cycle failed. -/
def pollFromBody (sinkOk : String → Payload → Bool) (now fallbackISO : String)
    (b : UpstreamBody) (s : St) : CycleOut :=
  match extractRecords b with
  | .seq xs => pollOpportunities sinkOk now fallbackISO xs s
  | .chars cs => pollOpportunities sinkOk now fallbackISO (cs.toList.map charRecord) s
  | .notIterable => { st := s, calls := [], ok := false }

/-- A JSON field of the registration request body as seen by zod: missing,
a string, or present with a non-string value. -/
inductive ReqField where
  | missing
  | strVal (s : String)
  | nonString
deriving DecidableEq

/-- The body of a `POST /hooks/register` request. -/
structure RegisterReq where
  event : ReqField
  url : ReqField
deriving DecidableEq

/-- The response of the registration endpoint: HTTP 400 with an error body,
or the success body `{ ok: true }`. -/
inductive RegisterResp where
  | badRequest
  | ok
deriving DecidableEq

/-- The `POST /hooks/register` handler: `z.object({ event: z.string(),
url: z.string().url() }).safeParse` followed by `setHook` on success.
zod's URL check is the external predicate `validUrl`. -/
def registerHandler (validUrl : String → Bool) (req : RegisterReq) (s : St) :
    RegisterResp × St :=
  match req.event, req.url with
  | .strVal ev, .strVal u =>
    if validUrl u then (.ok, setHook s ev u) else (.badRequest, s)
  | _, _ => (.badRequest, s)

/-- The spec's words for timestamp resolution, for comparison with the
source's `occurredAt`: the first *present* field among the aliases
`updated_at`, `updatedAt`, `updated`, in that priority order. -/
def firstPresentAlias (opp : RawRecord) : Option String :=
  match opp.updated_at with
  | some t => some t
  | none =>
    match opp.updatedAt with
    | some t => some t
    | none => opp.updated

/-- The spec's words continued: if no alias field is present, the current
wall-clock time is the resolved timestamp. -/
def specResolvedTimestamp (opp : RawRecord) (now : String) : String :=
  (firstPresentAlias opp).getD now

/-! ### Association-list lemmas -/

lemma lookup_append_some {l₁ l₂ : List (String × String)} {k v : String}
    (h : l₁.lookup k = some v) : (l₁ ++ l₂).lookup k = some v := by
  induction l₁ with
  | nil => simp [List.lookup] at h
  | cons p l ih =>
    obtain ⟨a, b⟩ := p
    cases hk : k == a with
    | true =>
      simp only [List.lookup, hk] at h
      simpa [List.lookup, hk] using h
    | false =>
      simp only [List.lookup, hk] at h
      simpa [List.lookup, hk] using ih h

lemma lookup_append_none {l₁ l₂ : List (String × String)} {k : String}
    (h : l₁.lookup k = none) : (l₁ ++ l₂).lookup k = l₂.lookup k := by
  induction l₁ with
  | nil => rfl
  | cons p l ih =>
    obtain ⟨a, b⟩ := p
    cases hk : k == a with
    | true => simp [List.lookup, hk] at h
    | false =>
      simp only [List.lookup, hk] at h
      simpa [List.lookup, hk] using ih h

lemma isSome_lookup_append_left {l₁ l₂ : List (String × String)} {k : String}
    (h : (l₁.lookup k).isSome = true) : ((l₁ ++ l₂).lookup k).isSome = true := by
  cases hl : l₁.lookup k with
  | none => rw [hl] at h; simp at h
  | some v => rw [lookup_append_some hl]; rfl

lemma lookup_upsert_self (l : List (String × String)) (k v : String) :
    (upsert l k v).lookup k = some v := by
  induction l with
  | nil => simp [upsert, List.lookup]
  | cons p l ih =>
    obtain ⟨a, b⟩ := p
    cases ha : a == k with
    | true => simp [upsert, ha, List.lookup]
    | false =>
      have hk : (k == a) = false := by
        rw [beq_eq_false_iff_ne] at ha ⊢
        exact fun e => ha e.symm
      simp [upsert, ha, List.lookup, hk, ih]

lemma lookup_upsert_ne (l : List (String × String)) (k v k₂ : String) (h : k₂ ≠ k) :
    (upsert l k v).lookup k₂ = l.lookup k₂ := by
  induction l with
  | nil =>
    have hk : (k₂ == k) = false := beq_eq_false_iff_ne.mpr h
    simp [upsert, List.lookup, hk]
  | cons p l ih =>
    obtain ⟨a, b⟩ := p
    cases ha : a == k with
    | true =>
      have hae : a = k := by rwa [beq_iff_eq] at ha
      subst hae
      have hk : (k₂ == a) = false := by simpa using h
      simp [upsert, List.lookup, hk]
    | false =>
      cases hk : k₂ == a with
      | true => simp [upsert, ha, List.lookup, hk]
      | false => simp [upsert, ha, List.lookup, hk, ih]

/-! ### Store-operation lemmas -/

lemma markDelivered_hooks (s : St) (k i : String) : (markDelivered s k i).hooks = s.hooks := by
  unfold markDelivered; split <;> rfl

lemma markDelivered_cursors (s : St) (k i : String) :
    (markDelivered s k i).cursors = s.cursors := by
  unfold markDelivered; split <;> rfl

lemma markDelivered_deliveries_of_new {s : St} {k : String} (i : String)
    (h : alreadyDelivered s k = false) :
    (markDelivered s k i).deliveries = s.deliveries ++ [(k, i)] := by
  unfold alreadyDelivered at h
  unfold markDelivered
  rw [if_neg (by simp [h])]

lemma alreadyDelivered_markDelivered_self (s : St) (k i : String) :
    alreadyDelivered (markDelivered s k i) k = true := by
  unfold markDelivered
  by_cases hp : (s.deliveries.lookup k).isSome = true
  · rw [if_pos hp]; exact hp
  · rw [if_neg hp]
    have hn : s.deliveries.lookup k = none := by
      cases hl : s.deliveries.lookup k with
      | none => rfl
      | some v => rw [hl] at hp; simp at hp
    unfold alreadyDelivered
    simp only []
    rw [lookup_append_none hn]
    simp [List.lookup]

lemma alreadyDelivered_markDelivered_mono {s : St} {k₂ : String} (k i : String)
    (h : alreadyDelivered s k₂ = true) :
    alreadyDelivered (markDelivered s k i) k₂ = true := by
  unfold markDelivered
  split
  · exact h
  · unfold alreadyDelivered at h ⊢
    exact isSome_lookup_append_left h

lemma alreadyDelivered_append {s : St} {extra : List (String × String)} {k : String}
    (h : alreadyDelivered s k = true) :
    alreadyDelivered { s with deliveries := s.deliveries ++ extra } k = true := by
  unfold alreadyDelivered at h ⊢
  exact isSome_lookup_append_left h

lemma setCursor_hooks (s : St) (n v : String) : (setCursor s n v).hooks = s.hooks := rfl

lemma setCursor_deliveries (s : St) (n v : String) :
    (setCursor s n v).deliveries = s.deliveries := rfl

lemma getHook_of_hooks_eq {s₁ s₂ : St} (h : s₁.hooks = s₂.hooks) (e : String) :
    getHook s₁ e = getHook s₂ e := by
  unfold getHook; rw [h]

lemma alreadyDelivered_of_deliveries_eq {s₁ s₂ : St} (h : s₁.deliveries = s₂.deliveries)
    (k : String) : alreadyDelivered s₁ k = alreadyDelivered s₂ k := by
  unfold alreadyDelivered; rw [h]

lemma getHook_markDelivered (s : St) (k i e : String) :
    getHook (markDelivered s k i) e = getHook s e :=
  getHook_of_hooks_eq (markDelivered_hooks s k i) e

/-! ### String-order lemmas -/

lemma empty_le_string (s : String) : "" ≤ s := by
  rw [String.le_iff_toList_le]
  exact List.nil_le

/-! ### Running-maximum lemmas -/

lemma bumpNewest_le (opp : RawRecord) (n : String) : n ≤ bumpNewest opp n := by
  cases h : recordUpdatedAt opp with
  | none => simp [bumpNewest, h]
  | some t =>
    simp only [bumpNewest, h]
    by_cases hlt : n < t
    · rw [if_pos hlt]; exact le_of_lt hlt
    · rw [if_neg hlt]

lemma bumpNewest_cases (opp : RawRecord) (n : String) :
    bumpNewest opp n = n ∨ recordUpdatedAt opp = some (bumpNewest opp n) := by
  cases h : recordUpdatedAt opp with
  | none => simp [bumpNewest, h]
  | some t =>
    simp only [bumpNewest, h]
    by_cases hlt : n < t
    · rw [if_pos hlt]; exact Or.inr rfl
    · rw [if_neg hlt]; exact Or.inl rfl

lemma le_bumpNewest {opp : RawRecord} {t : String} (n : String)
    (h : recordUpdatedAt opp = some t) : t ≤ bumpNewest opp n := by
  simp only [bumpNewest, h]
  by_cases hlt : n < t
  · rw [if_pos hlt]
  · rw [if_neg hlt]; exact le_of_not_lt hlt

/-! ### Loop-step computation and inversion lemmas -/

lemma stepRecord_skip {sinkOk : String → Payload → Bool} {now : String} {opp : RawRecord}
    {ls : LoopSt} (h : alreadyDelivered ls.st (idempotencyKey opp now) = true) :
    stepRecord sinkOk now opp ls = .ok { ls with newest := bumpNewest opp ls.newest } := by
  unfold stepRecord
  simp [h]

lemma stepRecord_no_hook {sinkOk : String → Payload → Bool} {now : String} {opp : RawRecord}
    {ls : LoopSt} (hd : alreadyDelivered ls.st (idempotencyKey opp now) = false)
    (hh : getHook ls.st eventName = none) :
    stepRecord sinkOk now opp ls =
      .ok { st := markDelivered ls.st (idempotencyKey opp now) now,
            calls := ls.calls, newest := bumpNewest opp ls.newest } := by
  unfold stepRecord
  simp [hd, hh]

lemma stepRecord_deliver {sinkOk : String → Payload → Bool} {now : String} {opp : RawRecord}
    {ls : LoopSt} {url : String}
    (hd : alreadyDelivered ls.st (idempotencyKey opp now) = false)
    (hh : getHook ls.st eventName = some url)
    (hs : sinkOk url (mkPayload opp now) = true) :
    stepRecord sinkOk now opp ls =
      .ok { st := markDelivered ls.st (idempotencyKey opp now) now,
            calls := ls.calls ++ [{ url := url, payload := mkPayload opp now }],
            newest := bumpNewest opp ls.newest } := by
  unfold stepRecord
  simp [hd, hh, hs]

lemma stepRecord_fail {sinkOk : String → Payload → Bool} {now : String} {opp : RawRecord}
    {ls : LoopSt} {url : String}
    (hd : alreadyDelivered ls.st (idempotencyKey opp now) = false)
    (hh : getHook ls.st eventName = some url)
    (hs : sinkOk url (mkPayload opp now) = false) :
    stepRecord sinkOk now opp ls =
      .error { st := ls.st,
               calls := ls.calls ++ [{ url := url, payload := mkPayload opp now }],
               newest := bumpNewest opp ls.newest } := by
  unfold stepRecord
  simp [hd, hh, hs]

lemma stepRecord_ok_inv {sinkOk : String → Payload → Bool} {now : String} {opp : RawRecord}
    {ls ls₂ : LoopSt} (h : stepRecord sinkOk now opp ls = .ok ls₂) :
    ls₂.st.hooks = ls.st.hooks ∧ ls₂.st.cursors = ls.st.cursors ∧
    ls₂.newest = bumpNewest opp ls.newest ∧
    alreadyDelivered ls₂.st (idempotencyKey opp now) = true ∧
    (∃ extra, ls₂.st.deliveries = ls.st.deliveries ++ extra ∧
      ∀ p ∈ extra, p.1 = idempotencyKey opp now) ∧
    (ls₂.calls = ls.calls ∨
      ∃ url, getHook ls.st eventName = some url ∧
        ls₂.calls = ls.calls ++ [{ url := url, payload := mkPayload opp now }]) := by
  cases hd : alreadyDelivered ls.st (idempotencyKey opp now) with
  | true =>
    rw [stepRecord_skip hd] at h
    injection h with h
    subst h
    exact ⟨rfl, rfl, rfl, hd, ⟨[], by simp, by simp⟩, Or.inl rfl⟩
  | false =>
    cases hh : getHook ls.st eventName with
    | none =>
      rw [stepRecord_no_hook hd hh] at h
      injection h with h
      subst h
      exact ⟨markDelivered_hooks _ _ _, markDelivered_cursors _ _ _, rfl,
        alreadyDelivered_markDelivered_self _ _ _,
        ⟨[(idempotencyKey opp now, now)], markDelivered_deliveries_of_new now hd, by simp⟩,
        Or.inl rfl⟩
    | some url =>
      cases hs : sinkOk url (mkPayload opp now) with
      | true =>
        rw [stepRecord_deliver hd hh hs] at h
        injection h with h
        subst h
        exact ⟨markDelivered_hooks _ _ _, markDelivered_cursors _ _ _, rfl,
          alreadyDelivered_markDelivered_self _ _ _,
          ⟨[(idempotencyKey opp now, now)], markDelivered_deliveries_of_new now hd, by simp⟩,
          Or.inr ⟨url, rfl, rfl⟩⟩
      | false =>
        rw [stepRecord_fail hd hh hs] at h
        cases h

lemma stepRecord_error_inv {sinkOk : String → Payload → Bool} {now : String} {opp : RawRecord}
    {ls ls₂ : LoopSt} (h : stepRecord sinkOk now opp ls = .error ls₂) :
    ls₂.st = ls.st ∧ ls₂.newest = bumpNewest opp ls.newest ∧
    alreadyDelivered ls.st (idempotencyKey opp now) = false ∧
    ∃ url, getHook ls.st eventName = some url ∧
      sinkOk url (mkPayload opp now) = false ∧
      ls₂.calls = ls.calls ++ [{ url := url, payload := mkPayload opp now }] := by
  cases hd : alreadyDelivered ls.st (idempotencyKey opp now) with
  | true => rw [stepRecord_skip hd] at h; cases h
  | false =>
    cases hh : getHook ls.st eventName with
    | none => rw [stepRecord_no_hook hd hh] at h; cases h
    | some url =>
      cases hs : sinkOk url (mkPayload opp now) with
      | true => rw [stepRecord_deliver hd hh hs] at h; cases h
      | false =>
        rw [stepRecord_fail hd hh hs] at h
        injection h with h
        subst h
        exact ⟨rfl, rfl, rfl, url, rfl, hs, rfl⟩

/-! ### Whole-loop lemmas -/

/-- The loop state carried out of `runLoop`, whether or not the loop threw:
SQLite writes performed before a throw survive the throw. -/
def loopOut : Except LoopSt LoopSt → LoopSt
  | .ok ls => ls
  | .error ls => ls

lemma runLoop_st_shape (sinkOk : String → Payload → Bool) (now : String) :
    ∀ (opps : List RawRecord) (ls : LoopSt),
      (loopOut (runLoop sinkOk now opps ls)).st.hooks = ls.st.hooks ∧
      (loopOut (runLoop sinkOk now opps ls)).st.cursors = ls.st.cursors ∧
      ∃ extra, (loopOut (runLoop sinkOk now opps ls)).st.deliveries =
          ls.st.deliveries ++ extra ∧
        ∀ p ∈ extra, ∃ r ∈ opps, p.1 = idempotencyKey r now := by
  intro opps
  induction opps with
  | nil => exact fun ls => ⟨rfl, rfl, ⟨[], by simp [runLoop, loopOut], by simp⟩⟩
  | cons opp rest ih =>
    intro ls
    cases hstep : stepRecord sinkOk now opp ls with
    | ok ls₂ =>
      have hrl : runLoop sinkOk now (opp :: rest) ls = runLoop sinkOk now rest ls₂ := by
        simp only [runLoop, hstep]
      rw [hrl]
      obtain ⟨hh, hc, extra, hdel, hmem⟩ := ih ls₂
      obtain ⟨h2h, h2c, _, _, ⟨extra₂, h2del, h2mem⟩, _⟩ := stepRecord_ok_inv hstep
      refine ⟨hh.trans h2h, hc.trans h2c, extra₂ ++ extra, ?_, ?_⟩
      · rw [hdel, h2del, List.append_assoc]
      · intro p hp
        rcases List.mem_append.mp hp with hp | hp
        · exact ⟨opp, by simp, h2mem p hp⟩
        · obtain ⟨r, hr, hpr⟩ := hmem p hp
          exact ⟨r, by simp [hr], hpr⟩
    | error ls₂ =>
      have hrl : runLoop sinkOk now (opp :: rest) ls = .error ls₂ := by
        simp only [runLoop, hstep]
      rw [hrl]
      obtain ⟨hst, -⟩ := stepRecord_error_inv hstep
      exact ⟨by rw [loopOut, hst], by rw [loopOut, hst], ⟨[], by simp [loopOut, hst], by simp⟩⟩

lemma runLoop_delivered_mono (sinkOk : String → Payload → Bool) (now : String)
    (opps : List RawRecord) (ls : LoopSt) (k : String)
    (h : alreadyDelivered ls.st k = true) :
    alreadyDelivered (loopOut (runLoop sinkOk now opps ls)).st k = true := by
  obtain ⟨-, -, extra, hdel, -⟩ := runLoop_st_shape sinkOk now opps ls
  unfold alreadyDelivered at h ⊢
  rw [hdel]
  exact isSome_lookup_append_left h

lemma runLoop_calls_shape (sinkOk : String → Payload → Bool) (now : String) :
    ∀ (opps : List RawRecord) (ls : LoopSt),
      ∃ extra, (loopOut (runLoop sinkOk now opps ls)).calls = ls.calls ++ extra ∧
        ∀ c ∈ extra, ∃ r ∈ opps, c.payload = mkPayload r now := by
  intro opps
  induction opps with
  | nil => exact fun ls => ⟨[], by simp [runLoop, loopOut], by simp⟩
  | cons opp rest ih =>
    intro ls
    cases hstep : stepRecord sinkOk now opp ls with
    | ok ls₂ =>
      have hrl : runLoop sinkOk now (opp :: rest) ls = runLoop sinkOk now rest ls₂ := by
        simp only [runLoop, hstep]
      rw [hrl]
      obtain ⟨extra, hcalls, hmem⟩ := ih ls₂
      obtain ⟨-, -, -, -, -, hc⟩ := stepRecord_ok_inv hstep
      rcases hc with hc | ⟨url, -, hc⟩
      · refine ⟨extra, by rw [hcalls, hc], ?_⟩
        intro c hcm
        obtain ⟨r, hr, hpr⟩ := hmem c hcm
        exact ⟨r, by simp [hr], hpr⟩
      · refine ⟨{ url := url, payload := mkPayload opp now } :: extra,
          by rw [hcalls, hc, List.append_assoc]; rfl, ?_⟩
        intro c hcm
        rcases List.mem_cons.mp hcm with hcm | hcm
        · exact ⟨opp, by simp, by rw [hcm]⟩
        · obtain ⟨r, hr, hpr⟩ := hmem c hcm
          exact ⟨r, by simp [hr], hpr⟩
    | error ls₂ =>
      have hrl : runLoop sinkOk now (opp :: rest) ls = .error ls₂ := by
        simp only [runLoop, hstep]
      rw [hrl]
      obtain ⟨-, -, -, url, -, -, hc⟩ := stepRecord_error_inv hstep
      exact ⟨[{ url := url, payload := mkPayload opp now }], by rw [loopOut, hc],
        fun c hcm => ⟨opp, by simp, by simp at hcm; rw [hcm]⟩⟩

lemma runLoop_ok_newest (sinkOk : String → Payload → Bool) (now : String) :
    ∀ (opps : List RawRecord) (ls ls₁ : LoopSt),
      runLoop sinkOk now opps ls = .ok ls₁ →
      ls.newest ≤ ls₁.newest ∧
      (ls₁.newest = ls.newest ∨ ∃ r ∈ opps, recordUpdatedAt r = some ls₁.newest) ∧
      ∀ r ∈ opps, ∀ t, recordUpdatedAt r = some t → t ≤ ls₁.newest := by
  intro opps
  induction opps with
  | nil =>
    intro ls ls₁ h
    simp only [runLoop] at h
    injection h with h
    subst h
    exact ⟨le_refl _, Or.inl rfl, by simp⟩
  | cons opp rest ih =>
    intro ls ls₁ h
    cases hstep : stepRecord sinkOk now opp ls with
    | ok ls₂ =>
      rw [show runLoop sinkOk now (opp :: rest) ls = runLoop sinkOk now rest ls₂ by
        simp only [runLoop, hstep]] at h
      obtain ⟨hle, hmem, hub⟩ := ih ls₂ ls₁ h
      obtain ⟨-, -, hn, -, -, -⟩ := stepRecord_ok_inv hstep
      have hls₂ : ls.newest ≤ ls₂.newest := by rw [hn]; exact bumpNewest_le opp ls.newest
      refine ⟨le_trans hls₂ hle, ?_, ?_⟩
      · rcases hmem with hmem | ⟨r, hr, hrt⟩
        · rcases bumpNewest_cases opp ls.newest with hb | hb
          · exact Or.inl (by rw [hmem, hn, hb])
          · exact Or.inr ⟨opp, by simp, by rw [hmem, hn]; exact hb⟩
        · exact Or.inr ⟨r, by simp [hr], hrt⟩
      · intro r hr t ht
        rcases List.mem_cons.mp hr with hr | hr
        · subst hr
          exact le_trans (by rw [hn]; exact le_bumpNewest ls.newest ht) hle
        · exact hub r hr t ht
    | error ls₂ =>
      rw [show runLoop sinkOk now (opp :: rest) ls = .error ls₂ by
        simp only [runLoop, hstep]] at h
      cases h

lemma runLoop_all_skipped (sinkOk : String → Payload → Bool) (now : String) :
    ∀ (opps : List RawRecord) (ls : LoopSt),
      (∀ r ∈ opps, alreadyDelivered ls.st (idempotencyKey r now) = true) →
      ∃ n, runLoop sinkOk now opps ls =
        .ok { st := ls.st, calls := ls.calls, newest := n } := by
  intro opps
  induction opps with
  | nil =>
    intro ls _
    exact ⟨ls.newest, rfl⟩
  | cons opp rest ih =>
    intro ls hall
    have hd : alreadyDelivered ls.st (idempotencyKey opp now) = true := hall opp (by simp)
    obtain ⟨n, hn⟩ := ih { ls with newest := bumpNewest opp ls.newest }
      (fun r hr => hall r (by simp [hr]))
    refine ⟨n, ?_⟩
    rw [show runLoop sinkOk now (opp :: rest) ls =
        runLoop sinkOk now rest { ls with newest := bumpNewest opp ls.newest } by
      simp only [runLoop, stepRecord_skip hd]]
    exact hn

lemma runLoop_no_hook_ok (sinkOk : String → Payload → Bool) (now : String) :
    ∀ (opps : List RawRecord) (ls : LoopSt),
      getHook ls.st eventName = none →
      ∃ ls₁, runLoop sinkOk now opps ls = .ok ls₁ ∧ ls₁.calls = ls.calls ∧
        ∀ r ∈ opps, alreadyDelivered ls₁.st (idempotencyKey r now) = true := by
  intro opps
  induction opps with
  | nil => exact fun ls _ => ⟨ls, rfl, rfl, by simp⟩
  | cons opp rest ih =>
    intro ls hhook
    cases hd : alreadyDelivered ls.st (idempotencyKey opp now) with
    | true =>
      obtain ⟨ls₁, hrun, hcalls, hall⟩ := ih { ls with newest := bumpNewest opp ls.newest } hhook
      refine ⟨ls₁, ?_, hcalls, ?_⟩
      · rw [show runLoop sinkOk now (opp :: rest) ls =
            runLoop sinkOk now rest { ls with newest := bumpNewest opp ls.newest } by
          simp only [runLoop, stepRecord_skip hd]]
        exact hrun
      · intro r hr
        rcases List.mem_cons.mp hr with hr | hr
        · have hmono := runLoop_delivered_mono sinkOk now rest
            { ls with newest := bumpNewest opp ls.newest } (idempotencyKey opp now) hd
          rw [hrun] at hmono
          rw [hr]
          exact hmono
        · exact hall r hr
    | false =>
      have hhook₂ : getHook (markDelivered ls.st (idempotencyKey opp now) now) eventName
          = none := by
        rw [getHook_markDelivered]
        exact hhook
      obtain ⟨ls₁, hrun, hcalls, hall⟩ :=
        ih { st := markDelivered ls.st (idempotencyKey opp now) now,
             calls := ls.calls, newest := bumpNewest opp ls.newest } hhook₂
      refine ⟨ls₁, ?_, hcalls, ?_⟩
      · rw [show runLoop sinkOk now (opp :: rest) ls =
            runLoop sinkOk now rest
              { st := markDelivered ls.st (idempotencyKey opp now) now,
                calls := ls.calls, newest := bumpNewest opp ls.newest } by
          simp only [runLoop, stepRecord_no_hook hd hhook]]
        exact hrun
      · intro r hr
        rcases List.mem_cons.mp hr with hr | hr
        · have hd₂ : alreadyDelivered
              (markDelivered ls.st (idempotencyKey opp now) now)
              (idempotencyKey opp now) = true :=
            alreadyDelivered_markDelivered_self _ _ _
          have hmono := runLoop_delivered_mono sinkOk now rest
            { st := markDelivered ls.st (idempotencyKey opp now) now,
              calls := ls.calls, newest := bumpNewest opp ls.newest }
            (idempotencyKey opp now) hd₂
          rw [hrun] at hmono
          rw [hr]
          exact hmono
        · exact hall r hr

lemma runLoop_error_decomp (sinkOk : String → Payload → Bool) (now : String) :
    ∀ (opps : List RawRecord) (ls ls₁ : LoopSt),
      runLoop sinkOk now opps ls = .error ls₁ →
      ls₁.st.cursors = ls.st.cursors ∧ ls₁.st.hooks = ls.st.hooks ∧
      ∃ pre rf post url,
        opps = pre ++ rf :: post ∧
        getHook ls.st eventName = some url ∧
        sinkOk url (mkPayload rf now) = false ∧
        alreadyDelivered ls₁.st (idempotencyKey rf now) = false ∧
        (∀ r ∈ pre, alreadyDelivered ls₁.st (idempotencyKey r now) = true) ∧
        ∃ extra, ls₁.st.deliveries = ls.st.deliveries ++ extra ∧
          ∀ p ∈ extra, ∃ r ∈ pre, p.1 = idempotencyKey r now := by
  intro opps
  induction opps with
  | nil =>
    intro ls ls₁ h
    simp only [runLoop] at h
    cases h
  | cons opp rest ih =>
    intro ls ls₁ h
    cases hstep : stepRecord sinkOk now opp ls with
    | error ls₂ =>
      rw [show runLoop sinkOk now (opp :: rest) ls = .error ls₂ by
        simp only [runLoop, hstep]] at h
      injection h with h
      subst h
      obtain ⟨hst, -, hd, url, hh, hs, -⟩ := stepRecord_error_inv hstep
      refine ⟨by rw [hst], by rw [hst], [], opp, rest, url, rfl, hh, hs, ?_, by simp, ?_⟩
      · rw [alreadyDelivered_of_deliveries_eq (by rw [hst])]
        exact hd
      · exact ⟨[], by simp [hst], by simp⟩
    | ok ls₂ =>
      rw [show runLoop sinkOk now (opp :: rest) ls = runLoop sinkOk now rest ls₂ by
        simp only [runLoop, hstep]] at h
      obtain ⟨hcur, hhooks, pre, rf, post, url, hdec, hh, hs, hrfu, hpre, extra, hdel, hmem⟩ :=
        ih ls₂ ls₁ h
      obtain ⟨h2h, h2c, -, hdopp, ⟨extra₂, h2del, h2mem⟩, -⟩ := stepRecord_ok_inv hstep
      refine ⟨hcur.trans h2c, hhooks.trans h2h, opp :: pre, rf, post, url, by simp [hdec], ?_,
        hs, hrfu, ?_, extra₂ ++ extra, ?_, ?_⟩
      · rw [← getHook_of_hooks_eq h2h]
        exact hh
      · intro r hr
        rcases List.mem_cons.mp hr with hr | hr
        · have hmono := runLoop_delivered_mono sinkOk now rest ls₂ (idempotencyKey opp now) hdopp
          rw [h] at hmono
          rw [hr]
          exact hmono
        · exact hpre r hr
      · rw [hdel, h2del, List.append_assoc]
      · intro p hp
        rcases List.mem_append.mp hp with hp | hp
        · exact ⟨opp, by simp, h2mem p hp⟩
        · obtain ⟨r, hr, hpr⟩ := hmem p hp
          exact ⟨r, by simp [hr], hpr⟩

/-! ### Cycle-level helper lemmas -/

lemma pollOpportunities_ok_eq {sinkOk : String → Payload → Bool} {now fb : String}
    {opps : List RawRecord} {s : St} {ls₁ : LoopSt}
    (h : runLoop sinkOk now opps
      { st := s, calls := [], newest := getCursor s cursorName fb } = .ok ls₁) :
    pollOpportunities sinkOk now fb opps s =
      { st := setCursor ls₁.st cursorName ls₁.newest, calls := ls₁.calls, ok := true } := by
  simp only [pollOpportunities, h]

lemma pollOpportunities_error_eq {sinkOk : String → Payload → Bool} {now fb : String}
    {opps : List RawRecord} {s : St} {ls₁ : LoopSt}
    (h : runLoop sinkOk now opps
      { st := s, calls := [], newest := getCursor s cursorName fb } = .error ls₁) :
    pollOpportunities sinkOk now fb opps s =
      { st := ls₁.st, calls := ls₁.calls, ok := false } := by
  simp only [pollOpportunities, h]

lemma pollOpportunities_calls (sinkOk : String → Payload → Bool) (now fb : String)
    (opps : List RawRecord) (s : St) :
    (pollOpportunities sinkOk now fb opps s).calls =
      (loopOut (runLoop sinkOk now opps
        { st := s, calls := [], newest := getCursor s cursorName fb })).calls := by
  cases hrun : runLoop sinkOk now opps
      { st := s, calls := [], newest := getCursor s cursorName fb } with
  | ok ls₁ => rw [pollOpportunities_ok_eq hrun]; rfl
  | error ls₁ => rw [pollOpportunities_error_eq hrun]; rfl

lemma poll_ok_cursor_char (sinkOk : String → Payload → Bool) (now fb : String)
    (opps : List RawRecord) (s : St)
    (h : (pollOpportunities sinkOk now fb opps s).ok = true) :
    ∃ v, (pollOpportunities sinkOk now fb opps s).st.cursors.lookup cursorName = some v ∧
      getCursor s cursorName fb ≤ v ∧
      (v = getCursor s cursorName fb ∨ ∃ r ∈ opps, recordUpdatedAt r = some v) ∧
      ∀ r ∈ opps, ∀ t, recordUpdatedAt r = some t → t ≤ v := by
  cases hrun : runLoop sinkOk now opps
      { st := s, calls := [], newest := getCursor s cursorName fb } with
  | ok ls₁ =>
    rw [pollOpportunities_ok_eq hrun]
    obtain ⟨hle, hmem, hub⟩ := runLoop_ok_newest sinkOk now opps _ ls₁ hrun
    exact ⟨ls₁.newest, lookup_upsert_self _ _ _, hle, hmem, hub⟩
  | error ls₁ =>
    rw [pollOpportunities_error_eq hrun] at h
    cases h

lemma exists_mem_of_lookup_isSome {l : List (String × String)} {k : String}
    (h : (l.lookup k).isSome = true) : ∃ p ∈ l, p.1 = k := by
  induction l with
  | nil => simp [List.lookup] at h
  | cons p l ih =>
    obtain ⟨a, b⟩ := p
    cases hk : k == a with
    | true =>
      have ha : a = k := by rw [beq_iff_eq] at hk; exact hk.symm
      exact ⟨(a, b), by simp, ha⟩
    | false =>
      simp only [List.lookup, hk] at h
      obtain ⟨q, hq, hqk⟩ := ih h
      exact ⟨q, by simp [hq], hqk⟩

/-! ### Claim theorems -/

/-- C2: a polling cycle that completes without error persists, under the name
`opportunities.updated_at`, a cursor value that is greater than or equal to
(lexicographic string comparison) the cursor value read at the start of the
cycle; consequently, across consecutive successful cycles the persisted
cursor is monotonically non-decreasing. -/
theorem cursor_monotone (sinkOk : String → Payload → Bool) (now fb : String)
    (opps : List RawRecord) (s : St)
    (h : (pollOpportunities sinkOk now fb opps s).ok = true) :
    (∃ v, (pollOpportunities sinkOk now fb opps s).st.cursors.lookup cursorName = some v ∧
      getCursor s cursorName fb ≤ v) ∧
    ∀ (sinkOk₂ : String → Payload → Bool) (now₂ fb₂ : String) (opps₂ : List RawRecord)
      (v₁ v₂ : String),
      (pollOpportunities sinkOk now fb opps s).st.cursors.lookup cursorName = some v₁ →
      (pollOpportunities sinkOk₂ now₂ fb₂ opps₂
        (pollOpportunities sinkOk now fb opps s).st).ok = true →
      (pollOpportunities sinkOk₂ now₂ fb₂ opps₂
        (pollOpportunities sinkOk now fb opps s).st).st.cursors.lookup cursorName = some v₂ →
      v₁ ≤ v₂ := by
  constructor
  · obtain ⟨v, hv, hle, -, -⟩ := poll_ok_cursor_char sinkOk now fb opps s h
    exact ⟨v, hv, hle⟩
  · intro sinkOk₂ now₂ fb₂ opps₂ v₁ v₂ hv₁ hok₂ hv₂
    obtain ⟨v, hv, hle, -, -⟩ :=
      poll_ok_cursor_char sinkOk₂ now₂ fb₂ opps₂ (pollOpportunities sinkOk now fb opps s).st hok₂
    rw [hv₂] at hv
    injection hv with hv
    subst hv
    have hsince : getCursor (pollOpportunities sinkOk now fb opps s).st cursorName fb₂ =
        if v₁ = "" then fb₂ else v₁ := by
      unfold getCursor
      rw [hv₁]
    by_cases hemp : v₁ = ""
    · rw [hemp]
      exact empty_le_string v₂
    · rw [hsince, if_neg hemp] at hle
      exact hle

/-- C5: when no webhook URL is registered for `opportunity.updated`, a cycle
makes no outbound call at all, completes successfully, and still marks every
record of the batch as delivered in the ledger. -/
theorem no_subscriber_marks_delivered (sinkOk : String → Payload → Bool) (now fb : String)
    (opps : List RawRecord) (s : St) (h : getHook s eventName = none) :
    (pollOpportunities sinkOk now fb opps s).ok = true ∧
    (pollOpportunities sinkOk now fb opps s).calls = [] ∧
    ∀ r ∈ opps, alreadyDelivered (pollOpportunities sinkOk now fb opps s).st
      (idempotencyKey r now) = true := by
  obtain ⟨ls₁, hrun, hcalls, hall⟩ := runLoop_no_hook_ok sinkOk now opps
    { st := s, calls := [], newest := getCursor s cursorName fb } h
  rw [pollOpportunities_ok_eq hrun]
  refine ⟨rfl, hcalls, ?_⟩
  intro r hr
  rw [alreadyDelivered_of_deliveries_eq (setCursor_deliveries ls₁.st cursorName ls₁.newest)]
  exact hall r hr

/-- C7: every outbound call made by a polling cycle carries a payload whose
`idempotency_key` is exactly `"opportunity:" ++ id ++ ":" ++ occurred_at`,
where `id` is the delivered record's id and `occurred_at` is the payload's
resolved timestamp. -/
theorem call_key_shape (sinkOk : String → Payload → Bool) (now fb : String)
    (opps : List RawRecord) (s : St) :
    ∀ c ∈ (pollOpportunities sinkOk now fb opps s).calls,
      c.payload.idempotency_key =
        "opportunity:" ++ c.payload.data.id ++ ":" ++ c.payload.occurred_at := by
  intro c hc
  rw [pollOpportunities_calls] at hc
  obtain ⟨extra, hcalls, hmem⟩ := runLoop_calls_shape sinkOk now opps
    { st := s, calls := [], newest := getCursor s cursorName fb }
  rw [hcalls] at hc
  simp only [List.nil_append] at hc
  obtain ⟨r, -, hpr⟩ := hmem c hc
  rw [hpr]
  rfl

/-- C9: when every record of the batch is already in the delivery ledger, the
cycle completes with zero outbound calls and zero ledger inserts, yet still
persists a cursor equal to the running maximum of the batch timestamps and
the starting cursor. -/
theorem skipped_batch_advances_cursor (sinkOk : String → Payload → Bool) (now fb : String)
    (opps : List RawRecord) (s : St)
    (h : ∀ r ∈ opps, alreadyDelivered s (idempotencyKey r now) = true) :
    (pollOpportunities sinkOk now fb opps s).ok = true ∧
    (pollOpportunities sinkOk now fb opps s).calls = [] ∧
    (pollOpportunities sinkOk now fb opps s).st.deliveries = s.deliveries ∧
    ∃ v, (pollOpportunities sinkOk now fb opps s).st.cursors.lookup cursorName = some v ∧
      getCursor s cursorName fb ≤ v ∧
      (∀ r ∈ opps, ∀ t, recordUpdatedAt r = some t → t ≤ v) ∧
      (v = getCursor s cursorName fb ∨ ∃ r ∈ opps, recordUpdatedAt r = some v) := by
  obtain ⟨n, hrun⟩ := runLoop_all_skipped sinkOk now opps
    { st := s, calls := [], newest := getCursor s cursorName fb } h
  rw [pollOpportunities_ok_eq hrun]
  obtain ⟨hle, hmem, hub⟩ := runLoop_ok_newest sinkOk now opps _ _ hrun
  exact ⟨rfl, rfl, rfl, n, lookup_upsert_self _ _ _, hle, hub, hmem⟩

/-- C10: a record lacking all truthy timestamp aliases uses the wall-clock
`now` in its idempotency key and envelope, but the cursor persisted by a
successful cycle is always either the starting cursor or the truthy timestamp
of some record of the batch, never the wall-clock fallback of a
timestamp-less record. -/
theorem fallback_not_in_cursor (sinkOk : String → Payload → Bool) (now fb : String)
    (opps : List RawRecord) (s : St) :
    (∀ r ∈ opps, recordUpdatedAt r = none →
      occurredAt r now = now ∧
      idempotencyKey r now = "opportunity:" ++ r.id ++ ":" ++ now) ∧
    ((pollOpportunities sinkOk now fb opps s).ok = true →
      ∃ v, (pollOpportunities sinkOk now fb opps s).st.cursors.lookup cursorName = some v ∧
        (v = getCursor s cursorName fb ∨ ∃ r ∈ opps, recordUpdatedAt r = some v)) := by
  constructor
  · intro r _ hnone
    constructor
    · unfold occurredAt
      rw [hnone]
      rfl
    · unfold idempotencyKey occurredAt
      rw [hnone]
      rfl
  · intro h
    obtain ⟨v, hv, -, hmem, -⟩ := poll_ok_cursor_char sinkOk now fb opps s h
    exact ⟨v, hv, hmem⟩

/-! ### Concrete fixtures used by witnesses and counterexamples -/

/-- A record with a truthy `updated_at`. -/
def wRec : RawRecord :=
  { id := "1", updated_at := some "2025-01-01T00:00:00.000Z",
    updatedAt := none, updated := none }

/-- A second record with a later truthy `updated_at`. -/
def wRecB : RawRecord :=
  { id := "2", updated_at := some "2025-01-02T00:00:00.000Z",
    updatedAt := none, updated := none }

/-- A record with no timestamp alias at all. -/
def wRecNoTs : RawRecord :=
  { id := "3", updated_at := none, updatedAt := none, updated := none }

/-- A store with one registered hook for `opportunity.updated`. -/
def wHookSt : St :=
  { hooks := [("opportunity.updated", "https://hooks.zapier.example/abc")],
    cursors := [], deliveries := [] }

/-- A completely empty store. -/
def wEmptySt : St :=
  { hooks := [], cursors := [], deliveries := [] }

/-- A store whose ledger already contains `wRec`'s idempotency key. -/
def wDeliveredSt : St :=
  { hooks := [], cursors := [],
    deliveries := [("opportunity:1:2025-01-01T00:00:00.000Z", "2025-01-15T00:00:00.000Z")] }

/-- A sink oracle for which every outbound call succeeds. -/
def wSink : String → Payload → Bool := fun _ _ => true

/-- A wall-clock instant used by witnesses. -/
def wNow : String := "2025-02-01T00:00:00.000Z"

/-- A cursor fallback (now minus five minutes) used by witnesses. -/
def wFb : String := "2025-01-01T00:00:00.000Z"

/-- Witness for the cursor-monotonicity theorem at a concrete cycle. -/
theorem cursor_monotone_witness :
    (pollOpportunities wSink wNow wFb [wRec] wEmptySt).ok = true ∧
    ∃ v, (pollOpportunities wSink wNow wFb [wRec] wEmptySt).st.cursors.lookup cursorName
        = some v ∧ getCursor wEmptySt cursorName wFb ≤ v :=
  ⟨by decide, (cursor_monotone wSink wNow wFb [wRec] wEmptySt (by decide)).1⟩

/-- Witness for the no-subscriber theorem at a concrete cycle. -/
theorem no_subscriber_marks_delivered_witness :
    getHook wEmptySt eventName = none ∧
    (pollOpportunities wSink wNow wFb [wRec] wEmptySt).calls = [] ∧
    alreadyDelivered (pollOpportunities wSink wNow wFb [wRec] wEmptySt).st
      (idempotencyKey wRec wNow) = true :=
  ⟨by decide,
    (no_subscriber_marks_delivered wSink wNow wFb [wRec] wEmptySt (by decide)).2.1,
    (no_subscriber_marks_delivered wSink wNow wFb [wRec] wEmptySt (by decide)).2.2 wRec
      (by simp)⟩

/-- Witness for the idempotency-key-shape theorem at a concrete call. -/
theorem call_key_shape_witness :
    { url := "https://hooks.zapier.example/abc", payload := mkPayload wRec wNow : Call } ∈
      (pollOpportunities wSink wNow wFb [wRec] wHookSt).calls ∧
    (mkPayload wRec wNow).idempotency_key =
      "opportunity:" ++ (mkPayload wRec wNow).data.id ++ ":" ++
        (mkPayload wRec wNow).occurred_at :=
  ⟨by decide, call_key_shape wSink wNow wFb [wRec] wHookSt
    { url := "https://hooks.zapier.example/abc", payload := mkPayload wRec wNow } (by decide)⟩

/-- Witness for the skipped-batch theorem at a concrete cycle. -/
theorem skipped_batch_advances_cursor_witness :
    (∀ r ∈ [wRec], alreadyDelivered wDeliveredSt (idempotencyKey r wNow) = true) ∧
    (pollOpportunities wSink wNow wFb [wRec] wDeliveredSt).calls = [] ∧
    (pollOpportunities wSink wNow wFb [wRec] wDeliveredSt).st.deliveries =
      wDeliveredSt.deliveries :=
  ⟨by decide,
    (skipped_batch_advances_cursor wSink wNow wFb [wRec] wDeliveredSt (by decide)).2.1,
    (skipped_batch_advances_cursor wSink wNow wFb [wRec] wDeliveredSt (by decide)).2.2.1⟩

/-- Witness for the fallback-timestamp theorem at a concrete record. -/
theorem fallback_not_in_cursor_witness :
    occurredAt wRecNoTs wNow = wNow ∧
    idempotencyKey wRecNoTs wNow = "opportunity:" ++ wRecNoTs.id ++ ":" ++ wNow :=
  ⟨((fallback_not_in_cursor wSink wNow wFb [wRecNoTs] wEmptySt).1 wRecNoTs (by simp)
      (by decide)).1,
    ((fallback_not_in_cursor wSink wNow wFb [wRecNoTs] wEmptySt).1 wRecNoTs (by simp)
      (by decide)).2⟩

/-- C4 counterexample: a truthy response body that is neither a record list
nor carries one under `opportunities` or `data` (here: an object with neither
key) is not normalized into a record sequence — the `for ... of` throws, and
the cycle fails with no calls and no state change, contradicting the claim
that every shape yields a sequence. -/
theorem extract_other_shape_refuted :
    extractRecords (.obj .absent .absent) = .notIterable ∧
    pollFromBody wSink wNow wFb (.obj .absent .absent) wEmptySt =
      { st := wEmptySt, calls := [], ok := false } :=
  ⟨rfl, rfl⟩

/-- C4 (amended): a body carrying the record list under `opportunities`
(whatever the `data` field holds), or under `data` when `opportunities` is
falsy, or being itself the list, or being falsy (empty sequence), is
normalized into a single ordered sequence of raw records over which the
cycle iterates; a truthy string reached by the fallback chain is iterated
character by character, so the cycle proceeds over degenerate character
values rather than raw records; a truthy value that is neither a list nor a
string (e.g. the body object itself when neither key is truthy) is not
iterable and the cycle fails before touching the durable state. -/
theorem extract_shapes :
    (∀ (xs : List RawRecord) (d : JField),
      extractRecords (.arr xs) = .seq xs ∧
      extractRecords (.obj (.arrVal xs) d) = .seq xs ∧
      extractRecords (.obj .absent (.arrVal xs)) = .seq xs ∧
      extractRecords (.obj (.strVal "") (.arrVal xs)) = .seq xs) ∧
    extractRecords .nullish = .seq [] ∧
    extractRecords (.str "") = .seq [] ∧
    (∀ cs : String, cs ≠ "" →
      extractRecords (.str cs) = .chars cs ∧
      (∀ d, extractRecords (.obj (.strVal cs) d) = .chars cs) ∧
      extractRecords (.obj .absent (.strVal cs)) = .chars cs) ∧
    extractRecords (.obj .absent .absent) = .notIterable ∧
    extractRecords (.obj .absent .objVal) = .notIterable ∧
    (∀ d, extractRecords (.obj .objVal d) = .notIterable) ∧
    ∀ (sinkOk : String → Payload → Bool) (now fb : String) (b : UpstreamBody) (s : St),
      (∀ xs, extractRecords b = .seq xs →
        pollFromBody sinkOk now fb b s = pollOpportunities sinkOk now fb xs s) ∧
      (∀ cs, extractRecords b = .chars cs →
        pollFromBody sinkOk now fb b s =
          pollOpportunities sinkOk now fb (cs.toList.map charRecord) s) ∧
      (extractRecords b = .notIterable →
        pollFromBody sinkOk now fb b s = { st := s, calls := [], ok := false }) := by
  refine ⟨fun xs d => ⟨rfl, ?_, rfl, ?_⟩, rfl, rfl, ?_, rfl, rfl, fun d => rfl, ?_⟩
  · cases d <;> simp [extractRecords, iterateValue]
  · simp [extractRecords, iterateValue]
  · intro cs hcs
    refine ⟨?_, fun d => ?_, ?_⟩ <;> simp [extractRecords, iterateValue, hcs]
  · intro sinkOk now fb b s
    refine ⟨fun xs h => ?_, fun cs h => ?_, fun h => ?_⟩ <;> simp only [pollFromBody, h]

/-- Witness for the shape-normalization theorem: a non-empty string body is
iterated character-wise and the cycle proceeds, while an object body with
neither key makes the cycle fail without touching the state. -/
theorem extract_shapes_witness :
    extractRecords (.str "abc") = .chars "abc" ∧
    pollFromBody wSink wNow wFb (.str "abc") wHookSt =
      pollOpportunities wSink wNow wFb (("abc" : String).toList.map charRecord) wHookSt ∧
    pollFromBody wSink wNow wFb (.obj .objVal .absent) wHookSt =
      { st := wHookSt, calls := [], ok := false } :=
  ⟨(extract_shapes.2.2.2.1 "abc" (by decide)).1,
    (extract_shapes.2.2.2.2.2.2.2 wSink wNow wFb (.str "abc") wHookSt).2.1 "abc"
      (extract_shapes.2.2.2.1 "abc" (by decide)).1,
    (extract_shapes.2.2.2.2.2.2.2 wSink wNow wFb (.obj .objVal .absent) wHookSt).2.2 rfl⟩

/-- A record whose `updated_at` field is present but empty: JavaScript `||`
skips it as falsy, so the source resolves the later alias instead of the
first present one. -/
def wEmptyTsRec : RawRecord :=
  { id := "7", updated_at := some "", updatedAt := some "2025-05-05T00:00:00.000Z",
    updated := none }

/-- C6 counterexample: for a record whose `updated_at` is present but empty,
the first present alias is `updated_at` (value `""`), yet the code resolves
`updatedAt`; the resolved timestamp differs from the claim's
first-present-field reading. -/
theorem resolved_timestamp_refuted :
    firstPresentAlias wEmptyTsRec = some "" ∧
    occurredAt wEmptyTsRec wNow = "2025-05-05T00:00:00.000Z" ∧
    occurredAt wEmptyTsRec wNow ≠ specResolvedTimestamp wEmptyTsRec wNow := by
  refine ⟨rfl, by decide, by decide⟩

/-- C6 (amended): the resolved timestamp is the first alias among
`updated_at`, `updatedAt`, `updated` that is present with a truthy
(non-empty) value; when no alias is present and truthy, the wall-clock time
is used. -/
theorem resolved_timestamp_priority (r : RawRecord) (now : String) :
    (∀ t, r.updated_at = some t → t ≠ "" → occurredAt r now = t) ∧
    (∀ t, (r.updated_at = none ∨ r.updated_at = some "") → r.updatedAt = some t →
      t ≠ "" → occurredAt r now = t) ∧
    (∀ t, (r.updated_at = none ∨ r.updated_at = some "") →
      (r.updatedAt = none ∨ r.updatedAt = some "") → r.updated = some t → t ≠ "" →
      occurredAt r now = t) ∧
    ((r.updated_at = none ∨ r.updated_at = some "") →
      (r.updatedAt = none ∨ r.updatedAt = some "") →
      (r.updated = none ∨ r.updated = some "") → occurredAt r now = now) := by
  refine ⟨?_, ?_, ?_, ?_⟩
  · intro t h1 hne
    simp [occurredAt, recordUpdatedAt, truthy, h1, hne]
  · intro t h1 h2 hne
    rcases h1 with h1 | h1 <;>
      simp [occurredAt, recordUpdatedAt, truthy, h1, h2, hne]
  · intro t h1 h2 h3 hne
    rcases h1 with h1 | h1 <;> rcases h2 with h2 | h2 <;>
      simp [occurredAt, recordUpdatedAt, truthy, h1, h2, h3, hne]
  · intro h1 h2 h3
    rcases h1 with h1 | h1 <;> rcases h2 with h2 | h2 <;> rcases h3 with h3 | h3 <;>
      simp [occurredAt, recordUpdatedAt, truthy, h1, h2, h3]

/-- Witness for the alias-priority theorem at a concrete record. -/
theorem resolved_timestamp_priority_witness :
    occurredAt wRec wNow = "2025-01-01T00:00:00.000Z" :=
  (resolved_timestamp_priority wRec wNow).1 "2025-01-01T00:00:00.000Z" rfl (by decide)

/-- C8: the registration endpoint rejects a body whose `event` is not a
string, whose `url` is not a string, or whose `url` fails the URL validator,
with a client error and no state change; on a valid body it upserts the
registration (overwriting any previous URL for that event, leaving other
events, cursors and the ledger untouched) and reports success. -/
theorem register_endpoint_contract (validUrl : String → Bool) (req : RegisterReq) (s : St) :
    ((∀ ev u, req.event = .strVal ev → req.url = .strVal u → validUrl u = false) →
      registerHandler validUrl req s = (.badRequest, s)) ∧
    ∀ ev u, req.event = .strVal ev → req.url = .strVal u → validUrl u = true →
      (registerHandler validUrl req s).1 = .ok ∧
      (registerHandler validUrl req s).2.hooks.lookup ev = some u ∧
      (∀ e, e ≠ ev → (registerHandler validUrl req s).2.hooks.lookup e = s.hooks.lookup e) ∧
      (registerHandler validUrl req s).2.cursors = s.cursors ∧
      (registerHandler validUrl req s).2.deliveries = s.deliveries := by
  constructor
  · intro hbad
    cases he : req.event with
    | strVal ev =>
      cases hu : req.url with
      | strVal u =>
        have hv := hbad ev u he hu
        simp [registerHandler, he, hu, hv]
      | missing => simp [registerHandler, he, hu]
      | nonString => simp [registerHandler, he, hu]
    | missing => cases hu : req.url <;> simp [registerHandler, he, hu]
    | nonString => cases hu : req.url <;> simp [registerHandler, he, hu]
  · intro ev u he hu hv
    have hreg : registerHandler validUrl req s = (.ok, setHook s ev u) := by
      simp [registerHandler, he, hu, hv]
    rw [hreg]
    exact ⟨rfl, lookup_upsert_self _ _ _, fun e hne => lookup_upsert_ne _ _ _ _ hne, rfl, rfl⟩

/-- Witness for the registration theorem: the spec's `"not-a-url"` scenario
with a rejecting validator, and a successful upsert with an accepting one. -/
theorem register_endpoint_contract_witness :
    registerHandler (fun _ => false)
      { event := .strVal "opportunity.updated", url := .strVal "not-a-url" } wHookSt =
      (.badRequest, wHookSt) ∧
    (registerHandler (fun _ => true)
      { event := .strVal "opportunity.updated",
        url := .strVal "https://hooks.zapier.example/xyz" } wHookSt).2.hooks.lookup
      "opportunity.updated" = some "https://hooks.zapier.example/xyz" :=
  ⟨(register_endpoint_contract (fun _ => false)
      { event := .strVal "opportunity.updated", url := .strVal "not-a-url" } wHookSt).1
      (fun _ _ _ _ => rfl),
    ((register_endpoint_contract (fun _ => true)
      { event := .strVal "opportunity.updated",
        url := .strVal "https://hooks.zapier.example/xyz" } wHookSt).2
      "opportunity.updated" "https://hooks.zapier.example/xyz" rfl rfl rfl).2.1⟩

/-- C1: a record whose idempotency key is already in the ledger is skipped —
the loop step changes neither the durable state nor the call list (first
conjunct, fully general).  Consequently a record delivered once (registered
hook, successful sink call, same resolved timestamp) yields exactly one
outbound call whether it appears twice in one batch or in two consecutive
cycles, and the second cycle is a no-op on calls and on the ledger. -/
theorem idempotent_delivery (sinkOk : String → Payload → Bool)
    (now now₂ fb fb₂ : String) (r : RawRecord) (t url : String) (s : St)
    (ht : recordUpdatedAt r = some t)
    (hhook : getHook s eventName = some url)
    (hsink : sinkOk url (mkPayload r now) = true)
    (hnew : alreadyDelivered s (idempotencyKey r now) = false) :
    (∀ (sinkOk₂ : String → Payload → Bool) (now₃ : String) (opp : RawRecord) (ls : LoopSt),
      alreadyDelivered ls.st (idempotencyKey opp now₃) = true →
      stepRecord sinkOk₂ now₃ opp ls = .ok { ls with newest := bumpNewest opp ls.newest }) ∧
    (pollOpportunities sinkOk now fb [r] s).calls.length = 1 ∧
    (pollOpportunities sinkOk now fb [r, r] s).calls.length = 1 ∧
    (pollOpportunities sinkOk now₂ fb₂ [r] (pollOpportunities sinkOk now fb [r] s).st).calls
      = [] ∧
    (pollOpportunities sinkOk now₂ fb₂ [r]
        (pollOpportunities sinkOk now fb [r] s).st).st.deliveries =
      (pollOpportunities sinkOk now fb [r] s).st.deliveries := by
  have hstep1 := @stepRecord_deliver sinkOk now r
    { st := s, calls := [], newest := getCursor s cursorName fb } url hnew hhook hsink
  have hrun1 : runLoop sinkOk now [r]
      { st := s, calls := [], newest := getCursor s cursorName fb } =
      .ok { st := markDelivered s (idempotencyKey r now) now,
            calls := [{ url := url, payload := mkPayload r now }],
            newest := bumpNewest r (getCursor s cursorName fb) } := by
    simp only [runLoop, hstep1, List.nil_append]
  have hpoll1 : pollOpportunities sinkOk now fb [r] s =
      { st := setCursor (markDelivered s (idempotencyKey r now) now) cursorName
          (bumpNewest r (getCursor s cursorName fb)),
        calls := [{ url := url, payload := mkPayload r now }], ok := true } :=
    pollOpportunities_ok_eq hrun1
  have hd2 : alreadyDelivered (markDelivered s (idempotencyKey r now) now)
      (idempotencyKey r now) = true := alreadyDelivered_markDelivered_self _ _ _
  have hstep2 := @stepRecord_skip sinkOk now r
    { st := markDelivered s (idempotencyKey r now) now,
      calls := [{ url := url, payload := mkPayload r now }],
      newest := bumpNewest r (getCursor s cursorName fb) } hd2
  have hrun2 : runLoop sinkOk now [r, r]
      { st := s, calls := [], newest := getCursor s cursorName fb } =
      .ok { st := markDelivered s (idempotencyKey r now) now,
            calls := [{ url := url, payload := mkPayload r now }],
            newest := bumpNewest r (bumpNewest r (getCursor s cursorName fb)) } := by
    simp only [runLoop, hstep1, List.nil_append, hstep2]
  have hpoll2 := pollOpportunities_ok_eq hrun2
  have hkey : idempotencyKey r now₂ = idempotencyKey r now := by
    simp [idempotencyKey, occurredAt, ht]
  have hd3 : alreadyDelivered
      (setCursor (markDelivered s (idempotencyKey r now) now) cursorName
        (bumpNewest r (getCursor s cursorName fb))) (idempotencyKey r now₂) = true := by
    rw [hkey, alreadyDelivered_of_deliveries_eq (setCursor_deliveries _ _ _)]
    exact hd2
  have hstep3 := @stepRecord_skip sinkOk now₂ r
    { st := setCursor (markDelivered s (idempotencyKey r now) now) cursorName
        (bumpNewest r (getCursor s cursorName fb)),
      calls := [],
      newest := getCursor (setCursor (markDelivered s (idempotencyKey r now) now) cursorName
        (bumpNewest r (getCursor s cursorName fb))) cursorName fb₂ } hd3
  have hrun3 : runLoop sinkOk now₂ [r]
      { st := setCursor (markDelivered s (idempotencyKey r now) now) cursorName
          (bumpNewest r (getCursor s cursorName fb)),
        calls := [],
        newest := getCursor (setCursor (markDelivered s (idempotencyKey r now) now) cursorName
          (bumpNewest r (getCursor s cursorName fb))) cursorName fb₂ } =
      .ok { st := setCursor (markDelivered s (idempotencyKey r now) now) cursorName
              (bumpNewest r (getCursor s cursorName fb)),
            calls := [],
            newest := bumpNewest r
              (getCursor (setCursor (markDelivered s (idempotencyKey r now) now) cursorName
                (bumpNewest r (getCursor s cursorName fb))) cursorName fb₂) } := by
    simp only [runLoop, hstep3]
  have hst1 : (pollOpportunities sinkOk now fb [r] s).st =
      setCursor (markDelivered s (idempotencyKey r now) now) cursorName
        (bumpNewest r (getCursor s cursorName fb)) := by
    rw [hpoll1]
  have hpoll3 := pollOpportunities_ok_eq hrun3
  refine ⟨fun sinkOk₂ now₃ opp ls h => stepRecord_skip h, ?_, ?_, ?_, ?_⟩
  · rw [hpoll1]
    rfl
  · rw [hpoll2]
    rfl
  · rw [hst1, hpoll3]
  · rw [hst1, hpoll3]
    exact setCursor_deliveries _ _ _

/-- Witness for the idempotency theorem at a concrete record and store. -/
theorem idempotent_delivery_witness :
    recordUpdatedAt wRec = some "2025-01-01T00:00:00.000Z" ∧
    getHook wHookSt eventName = some "https://hooks.zapier.example/abc" ∧
    alreadyDelivered wHookSt (idempotencyKey wRec wNow) = false ∧
    (pollOpportunities wSink wNow wFb [wRec, wRec] wHookSt).calls.length = 1 ∧
    (pollOpportunities wSink "2025-02-02T00:00:00.000Z" wFb [wRec]
      (pollOpportunities wSink wNow wFb [wRec] wHookSt).st).calls = [] := by
  have h := idempotent_delivery wSink wNow "2025-02-02T00:00:00.000Z" wFb wFb wRec
    "2025-01-01T00:00:00.000Z" "https://hooks.zapier.example/abc" wHookSt
    (by decide) (by decide) rfl (by decide)
  exact ⟨by decide, by decide, by decide, h.2.2.1, h.2.2.2.1⟩

/-- A sink oracle that fails exactly on payloads whose record id is `"2"`. -/
def wFailOnB : String → Payload → Bool := fun _ p => p.data.id != "2"

/-- C3 counterexample: in the batch `[wRec, wRecB, wRec]` with delivery
failing on `wRecB` (position 2), the cycle aborts at position 2, yet the key
of the position-3 record is marked — it was marked by the identical
position-1 record within the same cycle, not in an earlier cycle — refuting
the claim that all records after the failing one remain unmarked unless
marked in an earlier cycle. -/
theorem partial_cycle_refuted :
    (pollOpportunities wFailOnB wNow wFb [wRec, wRecB, wRec] wHookSt).ok = false ∧
    (pollOpportunities wFailOnB wNow wFb [wRec, wRecB, wRec] wHookSt).calls.length = 2 ∧
    alreadyDelivered wHookSt (idempotencyKey wRec wNow) = false ∧
    alreadyDelivered (pollOpportunities wFailOnB wNow wFb [wRec, wRecB, wRec] wHookSt).st
      (idempotencyKey wRecB wNow) = false ∧
    alreadyDelivered (pollOpportunities wFailOnB wNow wFb [wRec, wRecB, wRec] wHookSt).st
      (idempotencyKey wRec wNow) = true := by
  refine ⟨by decide, by decide, by decide, by decide, by decide⟩

/-- C3 (amended): if a cycle fails, there is a decomposition of the batch at
the failing record — an unseen record whose sink call failed: every record
before it ends the cycle marked in the ledger, the failing record itself
stays unmarked, the ledger only grows by keys of records delivered before the
failure, a later record can end up marked only if its key was already in the
ledger before the cycle or coincides with the key of an earlier record of
the same cycle, and the cursor relation is untouched. -/
theorem partial_cycle_retry (sinkOk : String → Payload → Bool) (now fb : String)
    (opps : List RawRecord) (s : St)
    (hfail : (pollOpportunities sinkOk now fb opps s).ok = false) :
    (pollOpportunities sinkOk now fb opps s).st.cursors = s.cursors ∧
    ∃ pre rf post url,
      opps = pre ++ rf :: post ∧
      getHook s eventName = some url ∧
      sinkOk url (mkPayload rf now) = false ∧
      alreadyDelivered s (idempotencyKey rf now) = false ∧
      alreadyDelivered (pollOpportunities sinkOk now fb opps s).st (idempotencyKey rf now)
        = false ∧
      (∀ r ∈ pre, alreadyDelivered (pollOpportunities sinkOk now fb opps s).st
        (idempotencyKey r now) = true) ∧
      ∀ r ∈ post,
        alreadyDelivered (pollOpportunities sinkOk now fb opps s).st (idempotencyKey r now)
          = true →
        alreadyDelivered s (idempotencyKey r now) = true ∨
        ∃ r₂ ∈ pre, idempotencyKey r₂ now = idempotencyKey r now := by
  cases hrun : runLoop sinkOk now opps
      { st := s, calls := [], newest := getCursor s cursorName fb } with
  | ok ls₁ =>
    rw [pollOpportunities_ok_eq hrun] at hfail
    cases hfail
  | error ls₁ =>
    rw [pollOpportunities_error_eq hrun]
    obtain ⟨hcur, -, pre, rf, post, url, hdec, hh, hs, hrfu, hpre, extra, hdel, hmem⟩ :=
      runLoop_error_decomp sinkOk now opps _ ls₁ hrun
    have hdel' : ls₁.st.deliveries = s.deliveries ++ extra := hdel
    have hrfs : alreadyDelivered s (idempotencyKey rf now) = false := by
      cases hsd : alreadyDelivered s (idempotencyKey rf now) with
      | false => rfl
      | true =>
        exfalso
        have hmarked : alreadyDelivered ls₁.st (idempotencyKey rf now) = true := by
          unfold alreadyDelivered at hsd ⊢
          rw [hdel']
          exact isSome_lookup_append_left hsd
        rw [hmarked] at hrfu
        cases hrfu
    refine ⟨hcur, pre, rf, post, url, hdec, hh, hs, hrfs, hrfu, hpre, ?_⟩
    intro r₃ hr₃ htrue
    have htrue' : ((s.deliveries ++ extra).lookup (idempotencyKey r₃ now)).isSome = true := by
      unfold alreadyDelivered at htrue
      rw [hdel'] at htrue
      exact htrue
    cases hsl : s.deliveries.lookup (idempotencyKey r₃ now) with
    | some v =>
      left
      unfold alreadyDelivered
      rw [hsl]
      rfl
    | none =>
      right
      rw [lookup_append_none hsl] at htrue'
      obtain ⟨p, hp, hpk⟩ := exists_mem_of_lookup_isSome htrue'
      obtain ⟨r₂, hr₂, hpr₂⟩ := hmem p hp
      exact ⟨r₂, hr₂, by rw [← hpr₂, hpk]⟩

/-- Witness for the partial-cycle theorem at a concrete failing cycle. -/
theorem partial_cycle_retry_witness :
    (pollOpportunities wFailOnB wNow wFb [wRec, wRecB] wHookSt).ok = false ∧
    (pollOpportunities wFailOnB wNow wFb [wRec, wRecB] wHookSt).st.cursors =
      wHookSt.cursors ∧
    ∃ pre rf post url,
      [wRec, wRecB] = pre ++ rf :: post ∧
      getHook wHookSt eventName = some url ∧
      wFailOnB url (mkPayload rf wNow) = false ∧
      alreadyDelivered wHookSt (idempotencyKey rf wNow) = false ∧
      alreadyDelivered (pollOpportunities wFailOnB wNow wFb [wRec, wRecB] wHookSt).st
        (idempotencyKey rf wNow) = false ∧
      (∀ r ∈ pre, alreadyDelivered (pollOpportunities wFailOnB wNow wFb [wRec, wRecB]
        wHookSt).st (idempotencyKey r wNow) = true) := by
  have h := partial_cycle_retry wFailOnB wNow wFb [wRec, wRecB] wHookSt (by decide)
  obtain ⟨pre, rf, post, url, hdec, hh, hs, hrfs, hrfu, hpre, -⟩ := h.2
  exact ⟨by decide, h.1, pre, rf, post, url, hdec, hh, hs, hrfs, hrfu, hpre⟩

end CurrentZapier
